import Mathlib

/-!
Shallow embedding of the buddhabrot renderer (src/render.c, src/image_data.c,
and the worker-side merge of the JS orchestrator) for checking the
natural-language specification against the code.

Modelling conventions:
* C `double` arithmetic is modelled by exact rational arithmetic (`ℚ`); the
  claims settled here are about control flow, index arithmetic, buffer writes
  and integer accumulation, which do not depend on rounding.
* machine integers are `ℕ` with explicit `% 2 ^ 32` / `% 2 ^ 64` where the C
  code computes in `uint32_t` / `uint64_t` (or wasm32 `unsigned long`).
* the linear-memory buffers (pixel accumulation buffer, trajectory scratch
  array) are modelled as functions `ℕ → _` updated with `Function.update`;
  they are disjoint regions in the C heap and all writes are in-bounds.
-/

namespace Buddhabrot

def M32 : ℕ := 2 ^ 32
def M64 : ℕ := 2 ^ 64

/-! ## PCG32 random source (src/render.c lines 101-147) -/

structure Pcg where
  state : ℕ
  inc : ℕ
  deriving DecidableEq

/-- `pcg32_random_r`: advance the 64-bit LCG state and produce the 32-bit
XSH-RR output computed from the old state.  `(32 - rot) % 32` is the C
expression `(-rot) & 31` (`rot = oldstate >> 59 < 32`, and `2^32` is a
multiple of 32, so both agree). -/
def pcg32_random_r (rng : Pcg) : ℕ × Pcg :=
  let oldstate := rng.state
  let newstate := (oldstate * 6364136223846793005 + (rng.inc ||| 1)) % M64
  let xorshifted := (((oldstate >>> 18) ^^^ oldstate) >>> 27) % M32
  let rot := oldstate >>> 59
  (((xorshifted >>> rot) ||| ((xorshifted <<< ((32 - rot) % 32)) % M32)) % M32,
    ⟨newstate, rng.inc⟩)

/-- `pcg32_srandom_r`: the canonical PCG32 seeding procedure.  The prior
contents of `rng` are ignored: state is zeroed, the increment is derived from
`initseq`, one warm-up advance, add `initstate`, one more advance. -/
def pcg32_srandom_r (rng : Pcg) (initstate initseq : ℕ) : Pcg :=
  let rng1 : Pcg := ⟨0, ((initseq <<< 1) ||| 1) % M64⟩
  let rng2 := (pcg32_random_r rng1).2
  let rng3 : Pcg := ⟨(rng2.state + initstate) % M64, rng2.inc⟩
  (pcg32_random_r rng3).2

def pcg32_srandom (rng : Pcg) (seed seq : ℕ) : Pcg :=
  pcg32_srandom_r rng seed seq

/-- `srand(seed)` calls `pcg32_srandom(0, seed)` on the global generator. -/
def srand (rng : Pcg) (seed : ℕ) : Pcg :=
  pcg32_srandom rng 0 seed

/-- The initial value of `pcg32_global` (src/render.c line 111). -/
def pcg32_global_init : Pcg :=
  ⟨0x853c49e6748fea9b, 0xda3e39cb94b95bdb⟩

/-- Drawing `n` successive 32-bit values from the generator. -/
def pcgStream : ℕ → Pcg → List ℕ
  | 0, _ => []
  | n + 1, rng => (pcg32_random_r rng).1 :: pcgStream n (pcg32_random_r rng).2

/-! ## Trajectory sampler (src/render.c lines 174-195) -/

structure Point where
  a : ℚ
  b : ℚ
  deriving DecidableEq

structure Pixel where
  r : ℕ
  g : ℕ
  b : ℕ
  deriving DecidableEq

/-- The escape check of the iteration loop: `aa + bb > 4`. -/
def escTest (a b : ℚ) : Bool :=
  decide (a * a + b * b > 4)

/-- One iteration update: `b = 2*a*b + cy; a = aa - bb + cx` (both computed
from the pre-update `a`, `b`). -/
def zStep (cx cy a b : ℚ) : Point :=
  ⟨a * a - b * b + cx, 2 * a * b + cy⟩

/-- The iterates starting from an arbitrary point `(a, b)`:
`zIterFrom cx cy a b n` is the point after `n` updates. -/
def zIterFrom (cx cy a b : ℚ) : ℕ → Point
  | 0 => ⟨a, b⟩
  | n + 1 =>
    let p := zIterFrom cx cy a b n
    zStep cx cy p.a p.b

/-- The trajectory of the sample `c = (cx, cy)` itself (`a = cx`, `b = cy`
initially, as in the C code). -/
def zIter (cx cy : ℚ) (n : ℕ) : Point :=
  zIterFrom cx cy cx cy n

/-- The sampling loop of `render`:
`iter = iters; while (iter > 0) { iter--; if (aa+bb > 4) break;
 update; points[iter] = point; }`.
The first component of the result is the final value of `iter` (the reported
escape iteration `k`), the second the trajectory scratch array after the
loop (slots not written keep their previous contents). -/
def sampleLoop (cx cy : ℚ) : ℚ → ℚ → ℕ → (ℕ → Point) → ℕ × (ℕ → Point)
  | _, _, 0, pts => (0, pts)
  | a, b, i + 1, pts =>
    if escTest a b then (i, pts)
    else
      let p := zStep cx cy a b
      sampleLoop cx cy p.a p.b i (Function.update pts i p)

/-! ## Projector and bounds check (src/render.c lines 207-209 and friends) -/

structure Mtx where
  m0 : ℚ
  m1 : ℚ
  m2 : ℚ
  m3 : ℚ
  m4 : ℚ
  m5 : ℚ
  m6 : ℚ
  m7 : ℚ
  deriving DecidableEq

/-- `x = floor(((unit + 2) / 4) * dim)`. -/
def toPix (u : ℚ) (dim : ℕ) : ℤ :=
  ⌊(u + 2) / 4 * (dim : ℚ)⌋

/-- `a*m0 + b*m1 + cx*m2 + cy*m3`. -/
def unitX (m : Mtx) (cx cy a b : ℚ) : ℚ :=
  a * m.m0 + b * m.m1 + cx * m.m2 + cy * m.m3

/-- `a*m4 + b*m5 + cx*m6 + cy*m7`. -/
def unitY (m : Mtx) (cx cy a b : ℚ) : ℚ :=
  a * m.m4 + b * m.m5 + cx * m.m6 + cy * m.m7

/-- The viewport clipping test `x >= 0 && y >= 0 && x < w && y < h`. -/
def inBnds (x y : ℤ) (w h : ℕ) : Bool :=
  decide (0 ≤ x) && decide (0 ≤ y) && decide (x < (w : ℤ)) && decide (y < (h : ℤ))

/-! ## Color strategies (src/render.c lines 40-99 and the switch branches) -/

/-- The double literal `PI = 3.1415926` as an exact rational. -/
def fpPI : ℚ := 31415926 / 10000000

/-- `hue2rgb` (the two adjustments of `t` are sequential, as in the C code). -/
def hue2rgb (p q t : ℚ) : ℚ :=
  let t1 := if t < 0 then t + 1 else t
  let t2 := if t1 > 1 then t1 - 1 else t1
  if t2 < 1 / 6 then p + (q - p) * 6 * t2
  else if t2 < 1 / 2 then q
  else if t2 < 2 / 3 then p + (q - p) * (2 / 3 - t2) * 6
  else p

/-- `floor(v * 255.999)` stored into an `unsigned long` channel (the values
produced are non-negative, so truncation is floor; `Int.toNat` is identity
there). -/
def chan (v : ℚ) : ℕ :=
  (⌊v * (255999 / 1000 : ℚ)⌋).toNat

/-- `hslToRgb`. -/
def hslToRgb (h s l : ℚ) : Pixel :=
  if s = 0 then ⟨chan l, chan l, chan l⟩
  else
    let q := if l < 1 / 2 then l * (1 + s) else l + s - l * s
    let p := 2 * l - q
    ⟨chan (hue2rgb p q (h + 1 / 3)), chan (hue2rgb p q h), chan (hue2rgb p q (h - 1 / 3))⟩

/-- The polynomial `atan2` approximation of src/render.c lines 75-99. -/
def atan2 (y x : ℚ) : ℚ :=
  let abs_y := |y| + 1 / 10000000000
  let r := if x < 0 then (x + abs_y) / (abs_y - x) else (x - abs_y) / (x + abs_y)
  let angle0 := if x < 0 then 3 * fpPI / 4 else fpPI / 4
  let angle := angle0 + (1963 / 10000 * r * r - 9817 / 10000) * r
  if y < 0 then -angle else angle

/-- The index list of a C loop `for (k = lo; k < hi; k++)`. -/
def loopIdx (lo hi : ℕ) : List ℕ :=
  List.range' lo (hi - lo)

/-- Per-point increment of `CM_hue_atan_red`. -/
def incRed (pts : ℕ → Point) (k : ℕ) : Pixel :=
  let a := (pts k).a
  let b := (pts k).b
  let angle0 := atan2 (b - (pts (k - 1)).b) (a - (pts (k - 1)).a)
  let angle1 := atan2 ((pts (k + 1)).b - b) ((pts (k + 1)).a - a)
  let hue := |angle1 - angle0| / fpPI
  let hue2 := if hue > 1 then 2 - hue else hue
  hslToRgb hue2 1 (1 / 2)

/-- Per-point increment of `CM_hue_atan_blue` (note the different folding rule
`hue - 1`). -/
def incBlue (pts : ℕ → Point) (k : ℕ) : Pixel :=
  let a := (pts k).a
  let b := (pts k).b
  let angle0 := atan2 (b - (pts (k - 1)).b) (a - (pts (k - 1)).a)
  let angle1 := atan2 (-(pts (k + 1)).b + (pts (k - 1)).b) (-(pts (k + 1)).a + (pts (k - 1)).a)
  let hue := |angle1 - angle0| / fpPI
  let hue2 := if hue > 1 then hue - 1 else hue
  hslToRgb hue2 1 (1 / 2)

/-- Per-point increment of `CM_hue_atan_green`. -/
def incGreen (pts : ℕ → Point) (k : ℕ) : Pixel :=
  let a := (pts k).a
  let b := (pts k).b
  let angle0 := atan2 (b - (pts (k - 1)).b) (a - (pts (k - 1)).a)
  let angle1 := atan2 (-(pts (k + 1)).b + b) (-(pts (k + 1)).a + a)
  let hue := |angle1 - angle0| / fpPI
  let hue2 := if hue > 1 then 2 - hue else hue
  hslToRgb hue2 1 (1 / 2)

/-- Per-point increment of `CM_hue_atan_asymm` (arguments swapped between the
axes, as in the source). -/
def incAsymm (pts : ℕ → Point) (k : ℕ) : Pixel :=
  let a := (pts k).a
  let b := (pts k).b
  let angle0 := atan2 (b - (pts (k - 1)).b) (a - (pts (k - 1)).a)
  let angle1 := atan2 ((pts (k + 1)).b - a) ((pts (k + 1)).a - b)
  let hue := |angle1 - angle0| / fpPI
  let hue2 := if hue > 1 then 2 - hue else hue
  hslToRgb hue2 1 (1 / 2)

/-- The `hue_iters` cycle-length hue for non-escaping trajectories: the first
`k` in `[iter+1, iters)` whose point revisits `points[iter]` within `0.01` on
both axes yields hue `frac((k - iter - 1) / 16)` (the value is non-negative,
so the C truncation `(int)hue` is the floor); no revisit yields hue `0`. -/
def hueItersInner (iters iter : ℕ) (pts : ℕ → Point) : ℚ :=
  match (loopIdx (iter + 1) iters).find? (fun k =>
      decide (|(pts k).a - (pts iter).a| < 1 / 100) &&
      decide (|(pts k).b - (pts iter).b| < 1 / 100)) with
  | some k =>
    let hue : ℚ := ((k - iter - 1 : ℕ) : ℚ) / 16
    hue - (⌊hue⌋ : ℚ)
  | none => 0

/-- The anti-black bump: `if (inc.r == 0 && inc.g == 0 && inc.b == 0) inc.r += 2`. -/
def bumpBlack (p : Pixel) : Pixel :=
  if p.r = 0 ∧ p.g = 0 ∧ p.b = 0 then ⟨p.r + 2, p.g, p.b⟩ else p

/-! ## Accumulator (src/render.c switch branches, lines 197-366) -/

/-- `pix->r += inc.r` etc. on 32-bit unsigned channels. -/
def pixAdd (p inc : Pixel) : Pixel :=
  ⟨(p.r + inc.r) % M32, (p.g + inc.g) % M32, (p.b + inc.b) % M32⟩

/-- One accumulation loop over trajectory indices `ks`: project each point,
clip to the viewport, and add the (in general `k`-dependent) increment into
the pixel buffer at `x + y * w`. -/
def accumLoop (w h : ℕ) (m : Mtx) (cx cy : ℚ) (pts : ℕ → Point)
    (ks : List ℕ) (inc : ℕ → Pixel) (buf : ℕ → Pixel) : ℕ → Pixel :=
  ks.foldl (fun bf k =>
    let p := pts k
    let x := toPix (unitX m cx cy p.a p.b) w
    let y := toPix (unitY m cx cy p.a p.b) h
    if inBnds x y w h then
      let idx := (x + y * (w : ℤ)).toNat
      Function.update bf idx (pixAdd (bf idx) (inc k))
    else bf) buf

def PM_inner : ℤ := 0
def PM_outer : ℤ := 1

def CM_white_black : ℤ := 0
def CM_hue_atan_red : ℤ := 1
def CM_hue_atan_blue : ℤ := 2
def CM_hue_atan_green : ℤ := 3
def CM_hue_atan_asymm : ℤ := 4
def CM_hue_iters : ℤ := 5

/-- The `switch (color_mode)` statement: each branch runs its accumulation
loop; an unrecognized mode falls through to `default: break` and leaves the
buffer untouched. -/
def modeAccum (w h iters : ℕ) (cm : ℤ) (m : Mtx) (cx cy : ℚ)
    (iter : ℕ) (pts : ℕ → Point) (buf : ℕ → Pixel) : ℕ → Pixel :=
  if cm = CM_white_black then
    accumLoop w h m cx cy pts (loopIdx iter iters) (fun _ => ⟨1, 1, 1⟩) buf
  else if cm = CM_hue_atan_red then
    accumLoop w h m cx cy pts (loopIdx (iter + 1) (iters - 1)) (incRed pts) buf
  else if cm = CM_hue_atan_blue then
    accumLoop w h m cx cy pts (loopIdx (iter + 1) (iters - 1)) (incBlue pts) buf
  else if cm = CM_hue_atan_green then
    accumLoop w h m cx cy pts (loopIdx (iter + 1) (iters - 1)) (incGreen pts) buf
  else if cm = CM_hue_atan_asymm then
    accumLoop w h m cx cy pts (loopIdx (iter + 1) (iters - 1)) (incAsymm pts) buf
  else if cm = CM_hue_iters then
    if iter = 0 then
      let inc := bumpBlack (hslToRgb (hueItersInner iters iter pts) 1 (hueItersInner iters iter pts / 2))
      accumLoop w h m cx cy pts (loopIdx iter iters) (fun _ => inc) buf
    else
      let inc := bumpBlack (hslToRgb (((iters - iter : ℕ) : ℚ) / (iters : ℚ)) 1 (1 / 2))
      accumLoop w h m cx cy pts (loopIdx iter iters) (fun _ => inc) buf
  else buf

/-! ## The render entry point (src/render.c lines 159-368) -/

structure RState where
  buf : ℕ → Pixel
  pts : ℕ → Point
  rng : Pcg

def UINT32_MAX : ℕ := 4294967295

/-- `((double)pcg32_random()) / UINT32_MAX * 4 - 2`. -/
def sampleCoord (r : ℕ) : ℚ :=
  (r : ℚ) / (UINT32_MAX : ℚ) * 4 - 2

/-- One pass of the `for (i = 0; i < samples; i++)` loop: draw `cx`, `cy`,
run the iteration loop, and, when the points-mode test
`(points_mode == PM_inner && iter == 0) || (points_mode == PM_outer && iter != 0)`
passes, run the selected color mode's accumulation. -/
def renderSample (w h iters : ℕ) (pm cm : ℤ) (m : Mtx) (st : RState) : RState :=
  let d1 := pcg32_random_r st.rng
  let d2 := pcg32_random_r d1.2
  let cx := sampleCoord d1.1
  let cy := sampleCoord d2.1
  let res := sampleLoop cx cy cx cy iters st.pts
  let buf :=
    if (pm = PM_inner ∧ res.1 = 0) ∨ (pm = PM_outer ∧ res.1 ≠ 0) then
      modeAccum w h iters cm m cx cy res.1 res.2 st.buf
    else st.buf
  ⟨buf, res.2, d2.2⟩

/-- `render`: the sample loop, `samples` passes of `renderSample`. -/
def render (w h iters samples : ℕ) (pm cm : ℤ) (m : Mtx) (st : RState) : RState :=
  (renderSample w h iters pm cm m)^[samples] st

/-! ## Tone mapper, mapping phase (src/image_data.c lines 42-49 and 114-131) -/

structure InPixel where
  r : ℕ
  g : ℕ
  b : ℕ
  deriving DecidableEq

structure OutPixel where
  r : ℕ
  g : ℕ
  b : ℕ
  a : ℕ
  deriving DecidableEq

def color_map_len : ℕ := 1024 * 256

/-- `map_color`: `i = c * (color_map_len - 1) + 0.5f;
return i >= color_map_len ? 255 : color_map[(int)i]`.  The LUT contents
(`color_map`, filled from the host's `math_pow`) are abstract here (`lut`). -/
def map_color (lut : ℕ → ℕ) (c : ℚ) : ℕ :=
  let i : ℚ := c * ((color_map_len : ℚ) - 1) + 1 / 2
  if (color_map_len : ℚ) ≤ i then 255 else lut (⌊i⌋.toNat)

/-- The output pixel written for position `pos`:
`out->r = map_color(in.r * brightness_k); ...; out->a = 255`. -/
def outPixelAt (lut : ℕ → ℕ) (bk : ℚ) (inBuf : ℕ → InPixel) (pos : ℕ) : OutPixel :=
  ⟨map_color lut ((inBuf pos).r * bk), map_color lut ((inBuf pos).g * bk),
   map_color lut ((inBuf pos).b * bk), 255⟩

/-- The inner loop of `convert_colors_for_image_data` over one line `j`. -/
def convertLine (lut : ℕ → ℕ) (bk : ℚ) (w j : ℕ) (inBuf : ℕ → InPixel)
    (out : ℕ → OutPixel) : ℕ → OutPixel :=
  (List.range w).foldl (fun o i =>
    Function.update o (i + j * w) (outPixelAt lut bk inBuf (i + j * w))) out

/-- `convert_colors_for_image_data(w, h, from_line, lines_count)`:
`for (j = from_line; j < from_line + lines_count; j++) for (i = 0; i < w; i++)`. -/
def convert_colors_for_image_data (lut : ℕ → ℕ) (bk : ℚ) (w from_line lines_count : ℕ)
    (inBuf : ℕ → InPixel) (out0 : ℕ → OutPixel) : ℕ → OutPixel :=
  (List.range' from_line lines_count).foldl (fun o j => convertLine lut bk w j inBuf o) out0

/-! ## Worker-buffer merge (JS orchestrator, `addColorBufTo`) -/

/-- `addColorBufTo(buf)`: `for (i = 0; i < len; i++) buf[i] += src[i]` on
`Uint32Array` views (addition wraps modulo `2^32`). -/
def addColorBufTo (len : ℕ) (dst src : ℕ → ℕ) : ℕ → ℕ :=
  (List.range len).foldl (fun bf i => Function.update bf i ((bf i + src i) % M32)) dst

/-- Merging a list of per-worker buffers into the shared buffer by repeated
`addColorBufTo` calls. -/
def mergeBufs (len : ℕ) (dst : ℕ → ℕ) (bufs : List (ℕ → ℕ)) : ℕ → ℕ :=
  bufs.foldl (fun acc src => addColorBufTo len acc src) dst

/-! ## Concrete fixtures used by counterexamples and witnesses -/

/-- The all-zero transform matrix (a legal caller-supplied matrix; it projects
every point to the viewport center column/row). -/
def mtx0 : Mtx := ⟨0, 0, 0, 0, 0, 0, 0, 0⟩

/-- A freshly reset render state: cleared pixel buffer, cleared trajectory
scratch, generator in its initial global state. -/
def st0 : RState :=
  ⟨fun _ => ⟨0, 0, 0⟩, fun _ => ⟨0, 0⟩, pcg32_global_init⟩

/-- A trajectory scratch buffer holding a recognizable stale value. -/
def stalePts : ℕ → Point := fun _ => ⟨5, 5⟩

/-- An all-zero trajectory scratch buffer. -/
def zeroPts : ℕ → Point := fun _ => ⟨0, 0⟩

def srcA : ℕ → ℕ := fun _ => 1
def srcB : ℕ → ℕ := fun _ => 2
def dst0 : ℕ → ℕ := fun _ => 0

/-- A constant LUT used by the tone-mapper witness. -/
def lut7 : ℕ → ℕ := fun _ => 7

/-- A constant input buffer used by the tone-mapper witness. -/
def inBuf123 : ℕ → InPixel := fun _ => ⟨1, 2, 3⟩

/-- An all-zero output buffer used by the tone-mapper witness. -/
def outZero : ℕ → OutPixel := fun _ => ⟨0, 0, 0, 0⟩

/-- `v' = (v + d) % 2^32` for some `d`, or untouched: the shape of every
change `render` makes to an accumulation-buffer channel. -/
def bumpRel (v v' : ℕ) : Prop :=
  v' = v ∨ ∃ d : ℕ, v' = (v + d) % M32

/-- `bumpRel` on all three channels of a pixel. -/
def bumpRelP (p q : Pixel) : Prop :=
  bumpRel p.r q.r ∧ bumpRel p.g q.g ∧ bumpRel p.b q.b

/-! ## Generic lemmas about folds of pointwise buffer updates -/

theorem foldl_update_notmem {α : Type} (l : List ℕ) (key : ℕ → ℕ) (g : ℕ → α)
    (out : ℕ → α) (p : ℕ) (h : ∀ i ∈ l, key i ≠ p) :
    l.foldl (fun o i => Function.update o (key i) (g i)) out p = out p := by
  induction l generalizing out with
  | nil => rfl
  | cons a t ih =>
    simp only [List.foldl_cons]
    rw [ih _ fun i hi => h i (List.mem_cons_of_mem a hi)]
    exact Function.update_noteq (Ne.symm (h a (List.mem_cons_self a t))) _ _

theorem foldl_update_mem {α : Type} (l : List ℕ) (key : ℕ → ℕ) (g : ℕ → α)
    (out : ℕ → α) (p i0 : ℕ) (hi : i0 ∈ l) (hk : key i0 = p)
    (hinj : ∀ i ∈ l, key i = p → i = i0) :
    l.foldl (fun o i => Function.update o (key i) (g i)) out p = g i0 := by
  induction l generalizing out with
  | nil => cases hi
  | cons a t ih =>
    simp only [List.foldl_cons]
    by_cases hmem : i0 ∈ t
    · exact ih _ hmem fun i hi' h' => hinj i (List.mem_cons_of_mem a hi') h'
    · have ha : a = i0 := by
        rcases List.mem_cons.mp hi with h | h
        · exact h.symm
        · exact absurd h hmem
      rw [foldl_update_notmem t key g _ p fun i hit hip =>
        hmem ((hinj i (List.mem_cons_of_mem a hit) hip) ▸ hit)]
      subst ha
      rw [hk]
      exact Function.update_same p (g a) out

theorem foldl_pres {α β : Type} (l : List β) (F : β → (ℕ → α) → (ℕ → α))
    (out : ℕ → α) (p : ℕ) (h : ∀ x ∈ l, ∀ o, F x o p = o p) :
    (l.foldl (fun o x => F x o) out) p = out p := by
  induction l generalizing out with
  | nil => rfl
  | cons a t ih =>
    simp only [List.foldl_cons]
    rw [ih _ fun x hx => h x (List.mem_cons_of_mem a hx), h a (List.mem_cons_self a t) out]

theorem pos_lt_pos (i i0 j j0 w : ℕ) (hi : i < w) (hj : j < j0) :
    i + j * w < i0 + j0 * w := by
  have h1 : i + j * w < (j + 1) * w := by
    have := Nat.add_lt_add_right hi (j * w)
    calc i + j * w < w + j * w := this
      _ = (j + 1) * w := by ring
  have h2 : (j + 1) * w ≤ j0 * w := Nat.mul_le_mul_right w hj
  have h3 : j0 * w ≤ i0 + j0 * w := Nat.le_add_left _ _
  omega

theorem pos_ne_pos (i i0 j j0 w : ℕ) (hi : i < w) (hi0 : i0 < w) (hne : j ≠ j0) :
    i + j * w ≠ i0 + j0 * w := by
  rcases Nat.lt_or_ge j j0 with h | h
  · exact Nat.ne_of_lt (pos_lt_pos i i0 j j0 w hi h)
  · have hj0 : j0 < j := lt_of_le_of_ne h (Ne.symm hne)
    exact (Nat.ne_of_lt (pos_lt_pos i0 i j0 j w hi0 hj0)).symm

/-! ## Sampling-loop lemmas -/

theorem sampleLoop_fst_le (cx cy : ℚ) (a b : ℚ) (i : ℕ) (pts : ℕ → Point) :
    (sampleLoop cx cy a b i pts).1 ≤ i - 1 := by
  induction i generalizing a b pts with
  | zero => simp [sampleLoop]
  | succ i ih =>
    rw [sampleLoop]
    split
    · simp
    · have := ih (zStep cx cy a b).a (zStep cx cy a b).b
        (Function.update pts i (zStep cx cy a b))
      simp only []
      omega

theorem zIterFrom_shift (cx cy a b : ℚ) (n : ℕ) :
    zIterFrom cx cy (zStep cx cy a b).a (zStep cx cy a b).b n =
      zIterFrom cx cy a b (n + 1) := by
  induction n with
  | zero => rfl
  | succ n ih => rw [zIterFrom, ih]; rfl

/-- When the loop broke out (`k > 0`), slots `0..k` of the trajectory array
keep their previous contents. -/
theorem sampleLoop_pts_low (cx cy a b : ℚ) (i : ℕ) (pts : ℕ → Point) (j : ℕ)
    (hk : 0 < (sampleLoop cx cy a b i pts).1)
    (h : j ≤ (sampleLoop cx cy a b i pts).1) :
    (sampleLoop cx cy a b i pts).2 j = pts j := by
  induction i generalizing a b pts with
  | zero => simp [sampleLoop] at hk
  | succ i ih =>
    rw [sampleLoop] at hk h ⊢
    by_cases hesc : escTest a b = true
    · rw [if_pos hesc]
    · rw [if_neg hesc] at hk h ⊢
      simp only [] at hk h ⊢
      have hle := sampleLoop_fst_le cx cy (zStep cx cy a b).a (zStep cx cy a b).b i
        (Function.update pts i (zStep cx cy a b))
      have hji : j < i := by omega
      rw [ih _ _ _ hk h]
      exact Function.update_noteq (Nat.ne_of_lt hji) _ _

/-- Slots at or above the fuel are never written. -/
theorem sampleLoop_pts_high (cx cy a b : ℚ) (i : ℕ) (pts : ℕ → Point) (j : ℕ)
    (h : i ≤ j) :
    (sampleLoop cx cy a b i pts).2 j = pts j := by
  induction i generalizing a b pts with
  | zero => rfl
  | succ i ih =>
    rw [sampleLoop]
    split
    · rfl
    · simp only []
      rw [ih _ _ _ (by omega)]
      exact Function.update_noteq (by omega) _ _

/-- Slots strictly between the reported `k` and the fuel hold the
corresponding iterate: slot `j` was written at pass `i - j` with the point
after `i - j` updates. -/
theorem sampleLoop_pts_mid (cx cy a b : ℚ) (i : ℕ) (pts : ℕ → Point) (j : ℕ)
    (h1 : (sampleLoop cx cy a b i pts).1 < j) (h2 : j < i) :
    (sampleLoop cx cy a b i pts).2 j = zIterFrom cx cy a b (i - j) := by
  induction i generalizing a b pts with
  | zero => omega
  | succ i ih =>
    rw [sampleLoop] at h1 ⊢
    by_cases hesc : escTest a b = true
    · rw [if_pos hesc] at h1 ⊢
      simp only [] at h1
      omega
    · rw [if_neg hesc] at h1 ⊢
      simp only [] at h1 ⊢
      rcases Nat.lt_or_ge j i with hji | hji
      · rw [ih _ _ _ h1 hji, zIterFrom_shift]
        congr 1
        omega
      · have hj : j = i := by omega
        rw [hj]
        rw [sampleLoop_pts_high cx cy _ _ i _ i (le_refl i)]
        rw [Function.update_same]
        have hsub : i + 1 - i = 1 := by omega
        rw [hsub]
        rfl

/-- `k = 0` exactly when the escape check failed at every one of the first
`iters - 1` passes (an escape detected at the very last pass also reports
`k = 0`). -/
theorem sampleLoop_fst_eq_zero_iff (cx cy a b : ℚ) (i : ℕ) (pts : ℕ → Point) :
    (sampleLoop cx cy a b i pts).1 = 0 ↔
      ∀ m, m + 1 < i →
        escTest (zIterFrom cx cy a b m).a (zIterFrom cx cy a b m).b = false := by
  induction i generalizing a b pts with
  | zero => simp [sampleLoop]
  | succ i ih =>
    rw [sampleLoop]
    split
    · rename_i hesc
      constructor
      · intro h0 m hm
        simp only [] at h0
        exfalso
        have : escTest (zIterFrom cx cy a b 0).a (zIterFrom cx cy a b 0).b = true := hesc
        have h00 : (0 : ℕ) + 1 < i + 1 := by omega
        omega
      · intro hall
        simp only []
        by_contra h0
        have hi1 : 1 < i + 1 := by omega
        have := hall 0 hi1
        rw [show zIterFrom cx cy a b 0 = ⟨a, b⟩ from rfl] at this
        rw [hesc] at this
        cases this
    · rename_i hesc
      simp only []
      rw [ih]
      constructor
      · intro hall m hm
        rcases m with _ | m'
        · simpa using hesc
        · have := hall m' (by omega)
          rw [zIterFrom_shift] at this
          exact this
      · intro hall m hm
        have := hall (m + 1) (by omega)
        rw [← zIterFrom_shift] at this
        exact this

/-- With a single iteration every sample ends the loop with `iter = 0`
(whether or not its one escape check fired). -/
theorem sampleLoop_fst_one (cx cy : ℚ) (pts : ℕ → Point) :
    (sampleLoop cx cy cx cy 1 pts).1 = 0 := by
  rw [sampleLoop]
  split
  · rfl
  · rfl

/-! ## Worker-merge lemmas -/

theorem addColorBufTo_apply (len : ℕ) (dst src : ℕ → ℕ) : ∀ p : ℕ,
    addColorBufTo len dst src p = if p < len then (dst p + src p) % M32 else dst p := by
  induction len with
  | zero => intro p; simp [addColorBufTo]
  | succ n ih =>
    intro p
    have hfold : addColorBufTo (n + 1) dst src =
        Function.update (addColorBufTo n dst src) n
          ((addColorBufTo n dst src n + src n) % M32) := by
      unfold addColorBufTo
      rw [List.range_succ, List.foldl_append]
      rfl
    rw [hfold]
    by_cases hp : p = n
    · rw [hp, Function.update_same, ih n, if_neg (by omega), if_pos (by omega)]
    · rw [Function.update_noteq hp, ih p]
      by_cases hlt : p < n
      · rw [if_pos hlt, if_pos (by omega)]
      · rw [if_neg hlt, if_neg (by omega)]

theorem addColorBufTo_comm (len : ℕ) (d s1 s2 : ℕ → ℕ) :
    addColorBufTo len (addColorBufTo len d s1) s2 =
      addColorBufTo len (addColorBufTo len d s2) s1 := by
  funext p
  simp only [addColorBufTo_apply]
  by_cases hp : p < len
  · simp only [if_pos hp]
    rw [Nat.mod_add_mod, Nat.mod_add_mod, Nat.add_right_comm]
  · simp only [if_neg hp]

theorem mergeBufs_perm (len : ℕ) (dst : ℕ → ℕ) (bufs bufs' : List (ℕ → ℕ))
    (hp : bufs.Perm bufs') :
    mergeBufs len dst bufs = mergeBufs len dst bufs' := by
  induction hp generalizing dst with
  | nil => rfl
  | cons x h ih =>
    simp only [mergeBufs, List.foldl_cons]
    exact ih (addColorBufTo len dst x)
  | swap x y l =>
    simp only [mergeBufs, List.foldl_cons]
    rw [addColorBufTo_comm]
  | trans h₁ h₂ ih₁ ih₂ =>
    exact (ih₁ dst).trans (ih₂ dst)

/-! ## Tone-mapper lemmas -/

theorem convertLine_apply_hit (lut : ℕ → ℕ) (bk : ℚ) (w j : ℕ) (inBuf : ℕ → InPixel)
    (out : ℕ → OutPixel) (i0 : ℕ) (hi : i0 < w) :
    convertLine lut bk w j inBuf out (i0 + j * w) = outPixelAt lut bk inBuf (i0 + j * w) := by
  unfold convertLine
  exact foldl_update_mem (List.range w) (fun i => i + j * w)
    (fun i => outPixelAt lut bk inBuf (i + j * w)) out (i0 + j * w) i0
    (List.mem_range.mpr hi) rfl
    (fun i hi' h' => by
      have hw : i < w := List.mem_range.mp hi'
      simp only [] at h'
      omega)

theorem convertLine_apply_miss (lut : ℕ → ℕ) (bk : ℚ) (w j : ℕ) (inBuf : ℕ → InPixel)
    (out : ℕ → OutPixel) (p : ℕ) (h : ∀ i, i < w → i + j * w ≠ p) :
    convertLine lut bk w j inBuf out p = out p := by
  unfold convertLine
  exact foldl_update_notmem (List.range w) (fun i => i + j * w)
    (fun i => outPixelAt lut bk inBuf (i + j * w)) out p
    (fun i hi => h i (List.mem_range.mp hi))

theorem foldl_lines_apply (lut : ℕ → ℕ) (bk : ℚ) (w : ℕ) (inBuf : ℕ → InPixel)
    (L : List ℕ) (out0 : ℕ → OutPixel) (i0 j0 : ℕ) (hi : i0 < w) (hj : j0 ∈ L) :
    (L.foldl (fun o j => convertLine lut bk w j inBuf o) out0) (i0 + j0 * w) =
      outPixelAt lut bk inBuf (i0 + j0 * w) := by
  induction L generalizing out0 with
  | nil => cases hj
  | cons a t ih =>
    simp only [List.foldl_cons]
    by_cases hmem : j0 ∈ t
    · exact ih _ hmem
    · have ha : a = j0 := by
        rcases List.mem_cons.mp hj with h | h
        · exact h.symm
        · exact absurd h hmem
      rw [foldl_pres t (fun j o => convertLine lut bk w j inBuf o) _ _
        (fun x hx o => convertLine_apply_miss lut bk w x inBuf o _
          (fun i hiw => pos_ne_pos i i0 x j0 w hiw hi (fun hxj => hmem (hxj ▸ hx))))]
      rw [ha]
      exact convertLine_apply_hit lut bk w j0 inBuf out0 i0 hi

theorem convert_apply (lut : ℕ → ℕ) (bk : ℚ) (w from_line lines_count : ℕ)
    (inBuf : ℕ → InPixel) (out0 : ℕ → OutPixel) (i0 j0 : ℕ)
    (hi : i0 < w) (hj1 : from_line ≤ j0) (hj2 : j0 < from_line + lines_count) :
    convert_colors_for_image_data lut bk w from_line lines_count inBuf out0 (i0 + j0 * w) =
      outPixelAt lut bk inBuf (i0 + j0 * w) := by
  unfold convert_colors_for_image_data
  exact foldl_lines_apply lut bk w inBuf _ out0 i0 j0 hi
    (List.mem_range'_1.mpr ⟨hj1, hj2⟩)

/-! ## Accumulation-shape lemmas -/

theorem bumpRel_rfl (v : ℕ) : bumpRel v v := Or.inl rfl

theorem bumpRel_trans {u v w : ℕ} (h1 : bumpRel u v) (h2 : bumpRel v w) : bumpRel u w := by
  rcases h1 with rfl | ⟨d1, rfl⟩
  · exact h2
  · rcases h2 with rfl | ⟨d2, rfl⟩
    · exact Or.inr ⟨d1, rfl⟩
    · exact Or.inr ⟨d1 + d2, by rw [Nat.mod_add_mod, Nat.add_assoc]⟩

theorem bumpRelP_rfl (p : Pixel) : bumpRelP p p :=
  ⟨bumpRel_rfl _, bumpRel_rfl _, bumpRel_rfl _⟩

theorem bumpRelP_trans {p q s : Pixel} (h1 : bumpRelP p q) (h2 : bumpRelP q s) :
    bumpRelP p s :=
  ⟨bumpRel_trans h1.1 h2.1, bumpRel_trans h1.2.1 h2.2.1, bumpRel_trans h1.2.2 h2.2.2⟩

theorem bumpRelP_pixAdd (p inc : Pixel) : bumpRelP p (pixAdd p inc) :=
  ⟨Or.inr ⟨inc.r, rfl⟩, Or.inr ⟨inc.g, rfl⟩, Or.inr ⟨inc.b, rfl⟩⟩

theorem accumLoop_bumpRelP (w h : ℕ) (m : Mtx) (cx cy : ℚ) (pts : ℕ → Point)
    (ks : List ℕ) (inc : ℕ → Pixel) (buf : ℕ → Pixel) (pos : ℕ) :
    bumpRelP (buf pos) (accumLoop w h m cx cy pts ks inc buf pos) := by
  induction ks generalizing buf with
  | nil => exact bumpRelP_rfl _
  | cons k t ih =>
    unfold accumLoop
    simp only [List.foldl_cons]
    refine bumpRelP_trans (p := buf pos) ?_ (ih _)
    by_cases hb : inBnds (toPix (unitX m cx cy (pts k).a (pts k).b) w)
        (toPix (unitY m cx cy (pts k).a (pts k).b) h) w h = true
    · rw [if_pos hb]
      by_cases hidx : (toPix (unitX m cx cy (pts k).a (pts k).b) w +
          toPix (unitY m cx cy (pts k).a (pts k).b) h * (w : ℤ)).toNat = pos
      · rw [← hidx]
        rw [Function.update_same]
        exact bumpRelP_pixAdd _ _
      · rw [Function.update_noteq (fun hc => hidx hc.symm)]
        exact bumpRelP_rfl _
    · rw [if_neg hb]
      exact bumpRelP_rfl _

theorem modeAccum_bumpRelP (w h iters : ℕ) (cm : ℤ) (m : Mtx) (cx cy : ℚ)
    (iter : ℕ) (pts : ℕ → Point) (buf : ℕ → Pixel) (pos : ℕ) :
    bumpRelP (buf pos) (modeAccum w h iters cm m cx cy iter pts buf pos) := by
  unfold modeAccum
  split_ifs <;> first
    | exact accumLoop_bumpRelP ..
    | exact bumpRelP_rfl _

theorem renderSample_bumpRelP (w h iters : ℕ) (pm cm : ℤ) (m : Mtx) (st : RState)
    (pos : ℕ) :
    bumpRelP (st.buf pos) ((renderSample w h iters pm cm m st).buf pos) := by
  unfold renderSample
  simp only []
  split_ifs
  · exact modeAccum_bumpRelP ..
  · exact bumpRelP_rfl _

theorem render_bumpRelP (w h iters samples : ℕ) (pm cm : ℤ) (m : Mtx) (st : RState)
    (pos : ℕ) :
    bumpRelP (st.buf pos) ((render w h iters samples pm cm m st).buf pos) := by
  induction samples with
  | zero => exact bumpRelP_rfl _
  | succ n ih =>
    unfold render at ih ⊢
    rw [Function.iterate_succ_apply']
    exact bumpRelP_trans ih (renderSample_bumpRelP ..)

/-! ## The 1x1 viewport with the zero matrix: every sample lands on pixel 0 -/

theorem unitX_mtx0 (cx cy a b : ℚ) : unitX mtx0 cx cy a b = 0 := by
  simp [unitX, mtx0]

theorem unitY_mtx0 (cx cy a b : ℚ) : unitY mtx0 cx cy a b = 0 := by
  simp [unitY, mtx0]

theorem toPix_zero_one : toPix 0 1 = 0 := by
  unfold toPix
  norm_num

theorem inBnds_origin : inBnds 0 0 1 1 = true := by decide

theorem accumLoop_unit (cx cy : ℚ) (pts : ℕ → Point) (inc : ℕ → Pixel)
    (buf : ℕ → Pixel) :
    accumLoop 1 1 mtx0 cx cy pts [0] inc buf =
      Function.update buf 0 (pixAdd (buf 0) (inc 0)) := by
  unfold accumLoop
  simp only [List.foldl_cons, List.foldl_nil, unitX_mtx0, unitY_mtx0, toPix_zero_one,
    inBnds_origin, if_true]
  norm_num

theorem renderSample_unit (st : RState) :
    ((renderSample 1 1 1 PM_inner CM_white_black mtx0 st).buf 0).r =
      ((st.buf 0).r + 1) % M32 := by
  unfold renderSample
  simp only [sampleLoop_fst_one]
  split_ifs with hc
  · show ((modeAccum 1 1 1 CM_white_black mtx0 _ _ 0 _ st.buf) 0).r = _
    unfold modeAccum
    rw [if_pos rfl]
    have hks : loopIdx 0 1 = [0] := rfl
    rw [hks, accumLoop_unit, Function.update_same]
    rfl
  · exact absurd (by decide) hc

theorem renderSample_unit_iter (n : ℕ) :
    (((renderSample 1 1 1 PM_inner CM_white_black mtx0)^[n] st0).buf 0).r = n % M32 := by
  induction n with
  | zero => rfl
  | succ m ih =>
    rw [Function.iterate_succ_apply', renderSample_unit, ih, Nat.mod_add_mod]

theorem render_unit_one (st : RState) :
    ((render 1 1 1 1 PM_inner CM_white_black mtx0 st).buf 0).r =
      ((st.buf 0).r + 1) % M32 :=
  renderSample_unit st

theorem render_unit_count (n : ℕ) :
    ((render 1 1 1 n PM_inner CM_white_black mtx0 st0).buf 0).r = n % M32 :=
  renderSample_unit_iter n

/-! ## Claim C1 -/

/-- C1 counterexample: with `iters = 1` and the sample `c = (2, 2)` (a point
of the sampling domain `[-2,2]×[-2,2]`), the escape check `a²+b²>4` holds at
the first and only pass, yet the loop reports `iter = 0` — the value the
claim says is reserved for trajectories whose checks all failed. -/
theorem C1_counterexample :
    (sampleLoop 2 2 2 2 1 zeroPts).1 = 0 ∧
      escTest (zIter 2 2 0).a (zIter 2 2 0).b = true := by
  refine ⟨sampleLoop_fst_one 2 2 zeroPts, ?_⟩
  show escTest 2 2 = true
  unfold escTest
  rw [decide_eq_true_eq]
  norm_num

/-- C1 (amended): the reported `k` is `0` iff the escape check failed at every
one of the first `iters - 1` passes.  A trajectory whose check first fires at
the final pass is also reported as `k = 0`, so `k = 0` conflates "never
escaped within the budget" with "escaped exactly at the last check". -/
theorem C1_escape_zero_iff (iters : ℕ) (cx cy : ℚ) (pts : ℕ → Point) :
    (sampleLoop cx cy cx cy iters pts).1 = 0 ↔
      ∀ m, m + 1 < iters →
        escTest (zIter cx cy m).a (zIter cx cy m).b = false :=
  sampleLoop_fst_eq_zero_iff cx cy cx cy iters pts

/-! ## Claim C2 -/

/-- C2 counterexample: a trajectory point whose projected unit coordinate is
exactly `-2` maps to pixel `0` and passes the clipping test — it is *not*
discarded (here on a 4×4 viewport, with the other axis at pixel 0). -/
theorem C2_counterexample :
    toPix (-2) 4 = 0 ∧ inBnds (toPix (-2) 4) 0 4 4 = true := by
  have h : toPix (-2) 4 = 0 := by
    unfold toPix
    norm_num
  exact ⟨h, by rw [h]; decide⟩

/-- C2 (amended): unit coordinate exactly `+2` maps to pixel `dim` and is
rejected by the half-open check, while unit coordinate exactly `-2` maps to
pixel `0` (in-bounds whenever the dimension is positive); the clipping test
accepts exactly the pixels of `[0,w)×[0,h)`, independently per axis. -/
theorem C2_clipping (w h : ℕ) (x y : ℤ) :
    toPix 2 w = (w : ℤ) ∧ inBnds (toPix 2 w) y w h = false ∧ toPix (-2) w = 0 ∧
      (inBnds x y w h = true ↔ 0 ≤ x ∧ x < (w : ℤ) ∧ 0 ≤ y ∧ y < (h : ℤ)) := by
  have h2 : toPix 2 w = (w : ℤ) := by
    unfold toPix
    norm_num
  have hm2 : toPix (-2) w = 0 := by
    unfold toPix
    norm_num
  refine ⟨h2, ?_, hm2, ?_⟩
  · rw [h2]
    unfold inBnds
    simp
  · unfold inBnds
    simp only [Bool.and_eq_true, decide_eq_true_eq]
    tauto

/-! ## Claim C3 -/

/-- C3 counterexample: one `render` call with `points_mode = inner` and
`iterations = 1` (1×1 viewport, zero matrix, freshly reset state) changes the
accumulation buffer: pixel 0's red counter grows. -/
theorem C3_counterexample :
    ((render 1 1 1 1 PM_inner CM_white_black mtx0 st0).buf 0).r ≠ (st0.buf 0).r := by
  have h : ((render 1 1 1 1 PM_inner CM_white_black mtx0 st0).buf 0).r = 1 := by
    show (((renderSample 1 1 1 PM_inner CM_white_black mtx0)^[1] st0).buf 0).r = 1
    rw [renderSample_unit_iter 1]
    norm_num [M32]
  have h0 : (st0.buf 0).r = 0 := rfl
  rw [h, h0]
  decide

/-- C3 (amended): with `iterations = 1` every sample leaves the iteration loop
with `iter = 0`, so `points_mode = inner` classifies *every* sample as inner
and runs its accumulation loop; the buffer can change (see the
counterexample). -/
theorem C3_inner_one_iteration (cx cy : ℚ) (pts : ℕ → Point) :
    (sampleLoop cx cy cx cy 1 pts).1 = 0 :=
  sampleLoop_fst_one cx cy pts

/-! ## Claim C4 -/

/-- C4 counterexample: the per-pixel counters are 32-bit and wrap: after
`2^32 - 1` single-sample `render` calls that each add 1 to pixel 0's red
channel, one more `render` call on the same buffer *decreases* the stored
counter (from `2^32 - 1` to `0`) — monotonicity fails at the wrap. -/
theorem C4_counterexample :
    ((render 1 1 1 1 PM_inner CM_white_black mtx0
        (render 1 1 1 (2 ^ 32 - 1) PM_inner CM_white_black mtx0 st0)).buf 0).r <
      ((render 1 1 1 (2 ^ 32 - 1) PM_inner CM_white_black mtx0 st0).buf 0).r := by
  rw [render_unit_one (render 1 1 1 (2 ^ 32 - 1) PM_inner CM_white_black mtx0 st0)]
  rw [render_unit_count (2 ^ 32 - 1)]
  norm_num [M32]

/-- C4 (amended): every channel of every pixel after a `render` call equals
its previous value plus a non-negative increment, reduced modulo `2^32`
(render never subtracts and never overwrites with unrelated values); the
counter is therefore non-decreasing exactly as long as the running total
stays below `2^32`, and wraps otherwise. -/
theorem C4_channels_add_mod (w h iters samples : ℕ) (pm cm : ℤ) (m : Mtx)
    (st : RState) (pos : ℕ)
    (hr : (st.buf pos).r < M32) (hg : (st.buf pos).g < M32)
    (hb : (st.buf pos).b < M32) :
    (∃ dr, ((render w h iters samples pm cm m st).buf pos).r =
      ((st.buf pos).r + dr) % M32) ∧
    (∃ dg, ((render w h iters samples pm cm m st).buf pos).g =
      ((st.buf pos).g + dg) % M32) ∧
    (∃ db, ((render w h iters samples pm cm m st).buf pos).b =
      ((st.buf pos).b + db) % M32) := by
  obtain ⟨h1, h2, h3⟩ := render_bumpRelP w h iters samples pm cm m st pos
  refine ⟨?_, ?_, ?_⟩
  · rcases h1 with h | hex
    · exact ⟨0, by rw [h, Nat.add_zero, Nat.mod_eq_of_lt hr]⟩
    · exact hex
  · rcases h2 with h | hex
    · exact ⟨0, by rw [h, Nat.add_zero, Nat.mod_eq_of_lt hg]⟩
    · exact hex
  · rcases h3 with h | hex
    · exact ⟨0, by rw [h, Nat.add_zero, Nat.mod_eq_of_lt hb]⟩
    · exact hex

/-- C4 witness: the amended statement at a concrete configuration. -/
theorem C4_witness :
    (∃ dr, ((render 1 1 1 1 PM_inner CM_white_black mtx0 st0).buf 0).r =
      ((st0.buf 0).r + dr) % M32) ∧
    (∃ dg, ((render 1 1 1 1 PM_inner CM_white_black mtx0 st0).buf 0).g =
      ((st0.buf 0).g + dg) % M32) ∧
    (∃ db, ((render 1 1 1 1 PM_inner CM_white_black mtx0 st0).buf 0).b =
      ((st0.buf 0).b + db) % M32) :=
  C4_channels_add_mod 1 1 1 1 PM_inner CM_white_black mtx0 st0 0
    (by decide) (by decide) (by decide)

/-! ## Claim C5 -/

/-- C5: for a sample that escapes with reported `k > 0`, the loop wrote
exactly the slots `k+1 .. iters-1` (slot `jIn` there holds the `(iters-jIn)`-th
iterate), every slot at or below `k` and at or above `iters` keeps its
previous contents, the accumulation index list that starts at `k`
(`white_black`, `hue_iters`) indeed reads slot `k` first — and that slot
still holds whatever a previous sample left there. -/
theorem C5_stale_first_slot (iters : ℕ) (cx cy : ℚ) (pts : ℕ → Point) (jIn jOut : ℕ)
    (hk : 0 < (sampleLoop cx cy cx cy iters pts).1)
    (hIn1 : (sampleLoop cx cy cx cy iters pts).1 < jIn) (hIn2 : jIn < iters)
    (hOut : jOut ≤ (sampleLoop cx cy cx cy iters pts).1 ∨ iters ≤ jOut) :
    (sampleLoop cx cy cx cy iters pts).2 jIn = zIter cx cy (iters - jIn) ∧
    (sampleLoop cx cy cx cy iters pts).2 jOut = pts jOut ∧
    (loopIdx (sampleLoop cx cy cx cy iters pts).1 iters).headI =
      (sampleLoop cx cy cx cy iters pts).1 ∧
    (sampleLoop cx cy cx cy iters pts).2 (sampleLoop cx cy cx cy iters pts).1 =
      pts (sampleLoop cx cy cx cy iters pts).1 := by
  refine ⟨sampleLoop_pts_mid cx cy cx cy iters pts jIn hIn1 hIn2, ?_, ?_,
    sampleLoop_pts_low cx cy cx cy iters pts _ hk (le_refl _)⟩
  · rcases hOut with h | h
    · exact sampleLoop_pts_low cx cy cx cy iters pts jOut hk h
    · exact sampleLoop_pts_high cx cy cx cy iters pts jOut h
  · have hklt : (sampleLoop cx cy cx cy iters pts).1 < iters := by omega
    unfold loopIdx
    have hsub : iters - (sampleLoop cx cy cx cy iters pts).1 =
        (iters - (sampleLoop cx cy cx cy iters pts).1 - 1) + 1 := by omega
    rw [hsub, List.range'_succ]
    rfl

/-- C5 witness: `iters = 3`, sample `(2, 0)`: the check passes once, the
point `(6, 0)` is written to slot 2, the second check fires, `k = 1`; slots
0 and 1 keep the stale value `(5, 5)`, and the `k`-based accumulation list
starts at the stale slot 1. -/
theorem C5_witness :
    0 < (sampleLoop 2 0 2 0 3 stalePts).1 ∧
    (sampleLoop 2 0 2 0 3 stalePts).2 2 = zIter 2 0 (3 - 2) ∧
    (sampleLoop 2 0 2 0 3 stalePts).2 0 = stalePts 0 ∧
    (loopIdx (sampleLoop 2 0 2 0 3 stalePts).1 3).headI =
      (sampleLoop 2 0 2 0 3 stalePts).1 ∧
    (sampleLoop 2 0 2 0 3 stalePts).2 (sampleLoop 2 0 2 0 3 stalePts).1 =
      stalePts (sampleLoop 2 0 2 0 3 stalePts).1 := by
  have e1 : escTest 2 0 = false := by
    unfold escTest
    rw [decide_eq_false_iff_not]
    norm_num
  have e2 : escTest 6 0 = true := by
    unfold escTest
    rw [decide_eq_true_eq]
    norm_num
  have hz : zStep 2 0 2 0 = ⟨6, 0⟩ := by
    unfold zStep
    norm_num
  have hfull : sampleLoop 2 0 2 0 3 stalePts =
      (1, Function.update stalePts 2 ⟨6, 0⟩) := by
    show sampleLoop 2 0 2 0 (2 + 1) stalePts = _
    rw [sampleLoop, e1, if_neg (by simp)]
    simp only [hz]
    show sampleLoop 2 0 (6 : ℚ) (0 : ℚ) (1 + 1) (Function.update stalePts 2 ⟨6, 0⟩) = _
    rw [sampleLoop, e2, if_pos rfl]
  have hfst : (sampleLoop 2 0 2 0 3 stalePts).1 = 1 := by rw [hfull]
  have h := C5_stale_first_slot 3 2 0 stalePts 2 0
    (by rw [hfst]; decide) (by rw [hfst]; decide) (by decide)
    (Or.inl (Nat.zero_le _))
  exact ⟨by rw [hfst]; decide, h.1, h.2.1, h.2.2.1, h.2.2.2⟩

/-! ## Claim C6 -/

/-- C6: the four angle-based color modes loop over
`k ∈ [iter+1, iters-2]` (the list `loopIdx (iter+1) (iters-1)`), so every
`k` they visit satisfies `1 ≤ k` and `k+1 ≤ iters-1`: the neighbor reads
`points[k-1]` and `points[k+1]` stay inside `[0, iters-1]`. -/
theorem C6_angle_mode_bounds (iters iter k : ℕ) (h1 : 1 ≤ iters)
    (h2 : k ∈ loopIdx (iter + 1) (iters - 1)) :
    iter + 1 ≤ k ∧ 1 ≤ k ∧ k - 1 < iters ∧ k < iters ∧ k + 1 < iters := by
  unfold loopIdx at h2
  have hm := List.mem_range'_1.mp h2
  omega

/-- C6 witness: the bounds at `iters = 4`, `iter = 0`, `k = 1`. -/
theorem C6_witness :
    0 + 1 ≤ 1 ∧ 1 ≤ 1 ∧ 1 - 1 < 4 ∧ 1 < 4 ∧ 1 + 1 < 4 :=
  C6_angle_mode_bounds 4 0 1 (by decide) (by decide)

/-! ## Claim C7 -/

/-- C7: a `points_mode` that is neither `PM_inner` nor `PM_outer`, or a
`color_mode` outside the six defined constants, makes `render` accumulate
nothing: the pixel buffer is unchanged (silent no-op, no default mode). -/
theorem C7_unknown_mode_noop (w h iters samples : ℕ) (pm cm : ℤ) (m : Mtx)
    (st : RState)
    (hbad : (pm ≠ PM_inner ∧ pm ≠ PM_outer) ∨
      (cm ≠ CM_white_black ∧ cm ≠ CM_hue_atan_red ∧ cm ≠ CM_hue_atan_blue ∧
       cm ≠ CM_hue_atan_green ∧ cm ≠ CM_hue_atan_asymm ∧ cm ≠ CM_hue_iters)) :
    (render w h iters samples pm cm m st).buf = st.buf := by
  have hstep : ∀ s : RState, (renderSample w h iters pm cm m s).buf = s.buf := by
    intro s
    unfold renderSample
    simp only []
    rcases hbad with ⟨hp1, hp2⟩ | hcm
    · rw [if_neg (by
        rintro (⟨hh, _⟩ | ⟨hh, _⟩)
        exacts [hp1 hh, hp2 hh])]
    · split_ifs with hcond
      · unfold modeAccum
        rw [if_neg hcm.1, if_neg hcm.2.1, if_neg hcm.2.2.1, if_neg hcm.2.2.2.1,
          if_neg hcm.2.2.2.2.1, if_neg hcm.2.2.2.2.2]
      · rfl
  unfold render
  induction samples with
  | zero => rfl
  | succ n ih => rw [Function.iterate_succ_apply', hstep, ih]

/-- C7 witness: `points_mode = 7` (unrecognized) leaves the freshly reset
buffer unchanged. -/
theorem C7_witness :
    (render 1 1 1 1 7 9 mtx0 st0).buf = st0.buf :=
  C7_unknown_mode_noop 1 1 1 1 7 9 mtx0 st0 (Or.inl (by decide))

/-! ## Claim C8 -/

/-- C8: `srand` fully resets the generator — the state after `srand(s)` is a
function of the seed alone (independent of any prior generator state), so two
runs from the same seed produce identical 32-bit output sequences; the
increment is derived from the seed as `(seed << 1) | 1`. -/
theorem C8_srand_deterministic (r1 r2 : Pcg) (s n : ℕ) :
    srand r1 s = srand r2 s ∧
    pcgStream n (srand r1 s) = pcgStream n (srand r2 s) ∧
    (srand r1 s).inc = ((s <<< 1) ||| 1) % M64 :=
  ⟨rfl, rfl, rfl⟩

/-! ## Claim C9 -/

/-- C9: the mapping phase writes, for every pixel of the processed lines,
exactly the LUT entry selected by `channel * brightness_k` into each channel
and `255` into alpha; and whenever the computed LUT index reaches the LUT's
length the result clamps to `255`. -/
theorem C9_mapping_phase (lut : ℕ → ℕ) (bk : ℚ) (w from_line lines_count : ℕ)
    (inBuf : ℕ → InPixel) (out0 : ℕ → OutPixel) (i j : ℕ) (c : ℚ)
    (hi : i < w) (hj1 : from_line ≤ j) (hj2 : j < from_line + lines_count)
    (hc : (color_map_len : ℤ) ≤ ⌊c * ((color_map_len : ℚ) - 1) + 1 / 2⌋) :
    convert_colors_for_image_data lut bk w from_line lines_count inBuf out0 (i + j * w) =
      ⟨map_color lut ((inBuf (i + j * w)).r * bk),
       map_color lut ((inBuf (i + j * w)).g * bk),
       map_color lut ((inBuf (i + j * w)).b * bk), 255⟩ ∧
    map_color lut c = 255 := by
  constructor
  · exact convert_apply lut bk w from_line lines_count inBuf out0 i j hi hj1 hj2
  · have hle := Int.le_floor.mp hc
    push_cast at hle
    unfold map_color
    simp only []
    rw [if_pos hle]

/-- C9 witness: a 1×1 image, brightness 1, constant LUT; and a value whose
index lies beyond the LUT clamps to 255. -/
theorem C9_witness :
    convert_colors_for_image_data lut7 1 1 0 1 inBuf123 outZero (0 + 0 * 1) =
      ⟨map_color lut7 ((inBuf123 (0 + 0 * 1)).r * 1),
       map_color lut7 ((inBuf123 (0 + 0 * 1)).g * 1),
       map_color lut7 ((inBuf123 (0 + 0 * 1)).b * 1), 255⟩ ∧
    map_color lut7 262145 = 255 :=
  C9_mapping_phase lut7 1 1 0 1 inBuf123 outZero 0 0 262145
    (by decide) (by decide) (by decide)
    (by rw [Int.le_floor]; push_cast; norm_num [color_map_len])

/-! ## Claim C10 -/

/-- C10: merging per-worker buffers into a shared buffer by elementwise
32-bit addition (`addColorBufTo`) is order-independent: any permutation of
the worker buffers yields a bitwise-identical merged buffer. -/
theorem C10_merge_order_free (len : ℕ) (dst : ℕ → ℕ) (bufs bufs' : List (ℕ → ℕ))
    (hp : bufs.Perm bufs') :
    mergeBufs len dst bufs = mergeBufs len dst bufs' :=
  mergeBufs_perm len dst bufs bufs' hp

/-- C10 witness: two concrete worker buffers merged in both orders. -/
theorem C10_witness :
    mergeBufs 1 dst0 [srcA, srcB] = mergeBufs 1 dst0 [srcB, srcA] :=
  C10_merge_order_free 1 dst0 [srcA, srcB] [srcB, srcA]
    (List.Perm.swap srcB srcA [])

end Buddhabrot
